import Mathlib

/-!
# Verification of the distributed stock-inventory core

Shallow embedding of the leader-election (bully algorithm), replication and
load-balancing core of the `ds-stock-inventory` repository, together with
proofs of the spec's testable properties.

JavaScript in-place mutation of a server object found in the shared `servers`
array is modelled by functional update of the first list element matching the
object's id (`updateFirst`); `JSON.parse(JSON.stringify(x))` deep copies are
the identity on pure values; machine numbers are modelled as `ℚ` (metrics,
prices) and `ℤ` (stock, quantities); strings stay strings.
-/

set_option maxHeartbeats 1000000

namespace DsStock

/-- An inventory record, one entry of a server's `products` array
(fields from the seed data in the main entry point). -/
structure Product where
  id : String
  name : String
  price : ℚ
  stock : ℤ
  category : String
deriving DecidableEq, Repr

/-- An order record as built by the order-creation paths.  Fields that no
modelled operation ever reads (customer name, e-mail, processing time) are
omitted; optional fields are `Option`-valued as they may be absent in JS. -/
structure Order where
  id : String
  productId : Option String
  productName : Option String
  quantity : ℤ
  totalPrice : ℚ
  handledBy : ℕ
  timestamp : String
  status : Option String
deriving DecidableEq, Repr

/-- One node of the simulated cluster (`servers` array element). -/
structure Server where
  id : ℕ
  name : String
  status : String
  isLeader : Bool
  products : List Product
  orders : List Order
deriving DecidableEq, Repr

/-- JS truthiness of an optional string (`undefined` and `''` are falsy). -/
def isTruthy : Option String → Bool
  | none => false
  | some s => s ≠ ""

/-- Apply `f` to the first element satisfying `p`, leaving the rest unchanged.
This is the functional rendering of `arr.find(p)` followed by in-place
mutation of the found object. -/
def updateFirst {α : Type} (p : α → Bool) (f : α → α) : List α → List α
  | [] => []
  | x :: xs => if p x then f x :: xs else x :: updateFirst p f xs

/-- `list.reduce((max, s) => s.id > max.id ? s : max)` over a server list:
the first element of maximal id.  `none` on the empty list (JS throws). -/
def reduceMaxServer : List Server → Option Server
  | [] => none
  | x :: xs => some (xs.foldl (fun max s => if s.id > max.id then s else max) x)

/-! ## Bully algorithm (`src/backend/utils/bullyAlgorithm.js`) -/

/-- The `BullyAlgorithm` instance state: the shared `servers` array plus the
`currentLeader` / `electionInProgress` fields of the class. -/
structure BullyState where
  servers : List Server
  currentLeader : Option ℕ
  electionInProgress : Bool
deriving DecidableEq, Repr

/-- `BullyAlgorithm.initializeLeader`: elect the active server with the
highest id; sets its `isLeader` flag (without clearing any other flag) and
records it as `currentLeader`.  Returns the elected server. -/
def initializeLeader (st : BullyState) : Option Server × BullyState :=
  let activeServers := st.servers.filter (fun s => s.status = "active")
  match reduceMaxServer activeServers with
  | none => (none, st)
  | some leader =>
      let servers' := updateFirst (fun s => s.id = leader.id)
        (fun s => { s with isLeader := true }) st.servers
      (some { leader with isLeader := true },
       { st with servers := servers', currentLeader := some leader.id })

/-- `BullyAlgorithm.electLeader`: clear every `isLeader` flag, then set the
flag of the named server if it exists and is active, recording it as
`currentLeader` and ending the election. -/
def electLeader (serverId : ℕ) (st : BullyState) : Option Server × BullyState :=
  let cleared := st.servers.map (fun s => { s with isLeader := false })
  match cleared.find? (fun s => s.id = serverId) with
  | none =>
      (none, { st with servers := cleared, electionInProgress := false })
  | some newLeader =>
      if newLeader.status = "active" then
        let servers' := updateFirst (fun s => s.id = serverId)
          (fun s => { s with isLeader := true }) cleared
        (some { newLeader with isLeader := true },
         { servers := servers', currentLeader := some serverId,
           electionInProgress := false })
      else
        (none, { st with servers := cleared, electionInProgress := false })

/-- `BullyAlgorithm.startElection`: no-op while an election is in progress,
reject a missing or inactive initiator, otherwise elect the highest-id active
server above the initiator (or the initiator itself when none is higher). -/
def startElection (initiatorId : ℕ) (st : BullyState) : Option Server × BullyState :=
  if st.electionInProgress then
    (none, st)
  else
    let st := { st with electionInProgress := true }
    match st.servers.find? (fun s => s.id = initiatorId) with
    | none => (none, { st with electionInProgress := false })
    | some initiator =>
        if initiator.status ≠ "active" then
          (none, { st with electionInProgress := false })
        else
          let higherIdServers := st.servers.filter
            (fun s => s.id > initiatorId ∧ s.status = "active")
          match reduceMaxServer higherIdServers with
          | none => electLeader initiatorId st
          | some highestServer => electLeader highestServer.id st

/-- `BullyAlgorithm.getLeader`: the server whose id is `currentLeader`. -/
def getLeader (st : BullyState) : Option Server :=
  match st.currentLeader with
  | none => none
  | some cid => st.servers.find? (fun s => s.id = cid)

/-! ## Replication manager (`src/backend/utils/replicationManager.js`) -/

/-- The untyped `data` argument of `replicate`.  The JS `dataType` string
selects the branch of the switch; `'product'` and `'order'` carry the two
payload shapes, any other string falls through to the throwing default. -/
inductive RepPayload : Type
  | product (p : Product)
  | order (o : Order)
  | unknown (dataType : String)
deriving DecidableEq, Repr

/-- Result record of `ReplicationManager.replicate`. -/
structure RepResult where
  success : ℕ
  failed : ℕ
  total : ℕ
deriving DecidableEq, Repr

/-- `products` after `create`/`update`: replace in place when the id is
already present (`findIndex` ≠ -1), otherwise push a copy. -/
def upsertProduct (products : List Product) (product : Product) : List Product :=
  match products.findIdx? (fun p => p.id = product.id) with
  | some i => products.set i product
  | none => products ++ [product]

/-- `orders` after a replicated `update`: same upsert-by-id shape. -/
def upsertOrder (orders : List Order) (order : Order) : List Order :=
  match orders.findIdx? (fun o => o.id = order.id) with
  | some i => orders.set i order
  | none => orders ++ [order]

/-- `ReplicationManager.replicateProduct`; throws on an unknown operation. -/
def replicateProduct (server : Server) (operation : String) (product : Product) :
    Except String Server :=
  if operation = "create" ∨ operation = "update" then
    .ok { server with products := upsertProduct server.products product }
  else if operation = "delete" then
    .ok { server with products := server.products.filter (fun p => p.id ≠ product.id) }
  else
    .error ("Unknown operation: " ++ operation)

/-- `ReplicationManager.replicateOrder`; a replicated `create` additionally
decrements the matching product's stock when the order names a product. -/
def replicateOrder (server : Server) (operation : String) (order : Order) :
    Except String Server :=
  let applied : Except String Server :=
    if operation = "create" then
      .ok { server with orders := server.orders ++ [order] }
    else if operation = "update" then
      .ok { server with orders := upsertOrder server.orders order }
    else if operation = "delete" then
      .ok { server with orders := server.orders.filter (fun o => o.id ≠ order.id) }
    else
      .error ("Unknown operation: " ++ operation)
  match applied with
  | .error e => .error e
  | .ok server' =>
      if operation = "create" ∧ isTruthy order.productId then
        .ok { server' with
              products := updateFirst (fun p => some p.id = order.productId)
                (fun p => { p with stock := p.stock - order.quantity }) server'.products }
      else
        .ok server'

/-- The per-target body of `replicate`'s `try` block: the switch over
`dataType`. -/
def applyReplication (data : RepPayload) (operation : String) (server : Server) :
    Except String Server :=
  match data with
  | .product p => replicateProduct server operation p
  | .order o => replicateOrder server operation o
  | .unknown dt => .error ("Unknown data type: " ++ dt)

/-- Whether a server is a replication target for a given source. -/
def isRepTarget (sourceServerId : ℕ) (s : Server) : Bool :=
  s.status = "active" ∧ s.id ≠ sourceServerId

/-- The `forEach` loop of `replicate`: per-target try/catch, counting
successes and failures.  Each iteration touches only its own server, so the
loop is rendered as structural recursion over the array. -/
def replicateGo (data : RepPayload) (operation : String) (sourceServerId : ℕ) :
    List Server → ℕ × ℕ × List Server
  | [] => (0, 0, [])
  | s :: rest =>
      let acc := replicateGo data operation sourceServerId rest
      if isRepTarget sourceServerId s then
        match applyReplication data operation s with
        | .ok s' => (acc.1 + 1, acc.2.1, s' :: acc.2.2)
        | .error _ => (acc.1, acc.2.1 + 1, s :: acc.2.2)
      else
        (acc.1, acc.2.1, s :: acc.2.2)

/-- `ReplicationManager.replicate`: apply the mutation to every active server
other than the source, catching and counting per-target failures. -/
def replicate (data : RepPayload) (operation : String) (sourceServerId : ℕ)
    (servers : List Server) : RepResult × List Server :=
  let total := (servers.filter (isRepTarget sourceServerId)).length
  let r := replicateGo data operation sourceServerId servers
  ({ success := r.1, failed := r.2.1, total := total }, r.2.2)

/-- `ReplicationManager.syncWithLeader`: deep-copy the leader's `products`
and `orders` onto the named server; `false` and no change when either id is
absent. -/
def syncWithLeader (serverId leaderId : ℕ) (servers : List Server) :
    Bool × List Server :=
  match servers.find? (fun s => s.id = serverId),
        servers.find? (fun s => s.id = leaderId) with
  | some _, some leader =>
      (true,
       updateFirst (fun s => s.id = serverId)
         (fun s => { s with products := leader.products, orders := leader.orders })
         servers)
  | _, _ => (false, servers)

/-! ## Lifecycle controller (socket manager `handleServerCrash` /
`handleServerRestart`).  The `setTimeout` bodies (election after the
detection delay, broadcast after the election delay) are executed in order;
auto-restart timers and Socket.IO broadcasts are outside the state model. -/

/-- Socket-manager `handleServerCrash`: mark the server crashed and clear its
flag; when it was the leader, null the recorded leader and, if any active
server remains, run an election initiated by the highest-id active server. -/
def handleServerCrash (serverId : ℕ) (st : BullyState) : BullyState :=
  match st.servers.find? (fun s => s.id = serverId) with
  | none => st
  | some server =>
      if server.status = "crashed" then st
      else
        let wasLeader := server.isLeader
        let st := { st with
          servers := updateFirst (fun s => s.id = serverId)
            (fun s => { s with status := "crashed", isLeader := false }) st.servers }
        if wasLeader then
          let st := { st with currentLeader := none }
          let activeServers := st.servers.filter (fun s => s.status = "active")
          match reduceMaxServer activeServers with
          | some initiator => (startElection initiator.id st).2
          | none => st
        else st

/-- Socket-manager `handleServerRestart`: reject when not crashed; otherwise
reactivate, sync with the current leader when there is one, and re-run the
election with the restarted server as initiator. -/
def handleServerRestart (serverId : ℕ) (st : BullyState) : BullyState :=
  match st.servers.find? (fun s => s.id = serverId) with
  | none => st
  | some server =>
      if server.status ≠ "crashed" then st
      else
        let st := { st with
          servers := updateFirst (fun s => s.id = serverId)
            (fun s => { s with status := "active" }) st.servers }
        let st :=
          match getLeader st with
          | some leader =>
              { st with servers := (syncWithLeader serverId leader.id st.servers).2 }
          | none => st
        (startElection serverId st).2

/-! ## Load balancer (`src/backend/utils/loadBalancer.js`) -/

/-- Per-server metrics record.  All JS numbers are modelled as `ℚ`;
`Date.now()` timestamps are opaque `ℚ` values supplied by the caller. -/
structure Metrics where
  activeConnections : ℚ
  totalRequests : ℚ
  avgResponseTime : ℚ
  weight : ℚ
  healthScore : ℚ
  cpuUsage : ℚ
  memoryUsage : ℚ
  queueDepth : ℚ
  lastHealthCheck : ℚ
deriving DecidableEq, Repr

/-- The metrics record created for every server at construction
(construction time modelled as instant 0). -/
def initialMetrics : Metrics :=
  { activeConnections := 0, totalRequests := 0, avgResponseTime := 100,
    weight := 1, healthScore := 100, cpuUsage := 0, memoryUsage := 0,
    queueDepth := 0, lastHealthCheck := 0 }

/-- `LoadBalancer` instance state: current algorithm, round-robin cursor and
the `serverMetrics` map (association list keyed by server id). -/
structure LBState where
  algorithm : String
  currentIndex : ℕ
  serverMetrics : List (ℕ × Metrics)
deriving DecidableEq, Repr

/-- `this.serverMetrics.get(id)`; every server id is entered into the map at
construction, so the fallback record is never reached on real states. -/
def getMetrics (lb : LBState) (serverId : ℕ) : Metrics :=
  ((lb.serverMetrics.find? (fun e => e.1 = serverId)).map (fun e => e.2)).getD
    initialMetrics

/-- `this.serverMetrics.set(id, m)` on a key already present. -/
def setMetrics (serverId : ℕ) (m : Metrics) (lb : LBState) : LBState :=
  { lb with serverMetrics :=
      updateFirst (fun e => e.1 = serverId) (fun e => (e.1, m)) lb.serverMetrics }

/-- `LoadBalancer.updateMetrics`, body of the switch on a single metrics
record.  `r1` and `r2` stand for the two `Math.random()` draws of the
health-check branch (so `0 ≤ r1 < 1`, `0 ≤ r2 < 1` at run time), `now` for
`Date.now()`. -/
def updateMetrics (m : Metrics) (action : String) (responseTime : Option ℚ)
    (now r1 r2 : ℚ) : Metrics :=
  if action = "request" then
    { m with totalRequests := m.totalRequests + 1,
             activeConnections := m.activeConnections + 1,
             queueDepth := m.queueDepth + 1 }
  else if action = "response" then
    let m := { m with activeConnections := max 0 (m.activeConnections - 1),
                      queueDepth := max 0 (m.queueDepth - 1) }
    match responseTime with
    | some rt => { m with avgResponseTime := m.avgResponseTime * 0.8 + rt * 0.2 }
    | none => m
  else if action = "health-check" then
    let cpuUsage := min 100 (m.activeConnections * 10 + r1 * 20)
    let memoryUsage := min 100 (m.activeConnections * 5 + r2 * 30)
    { m with lastHealthCheck := now, cpuUsage := cpuUsage,
             memoryUsage := memoryUsage,
             healthScore := max 0 (100 - (cpuUsage + memoryUsage) / 2) }
  else m

/-- `updateMetrics` lifted to the metrics map (early return when the id has
no record). -/
def updateMetricsMap (serverId : ℕ) (action : String) (responseTime : Option ℚ)
    (now r1 r2 : ℚ) (lb : LBState) : LBState :=
  match lb.serverMetrics.find? (fun e => e.1 = serverId) with
  | none => lb
  | some e => setMetrics serverId (updateMetrics e.2 action responseTime now r1 r2) lb

/-- `LoadBalancer.roundRobinSelection`: pick position `currentIndex % length`
of the active list and advance the cursor by one (mod length).  Returns the
selection together with the new cursor. -/
def roundRobinSelection (activeServers : List Server) (currentIndex : ℕ) :
    Option Server × ℕ :=
  match activeServers with
  | [] => (none, currentIndex)
  | _ => (activeServers.get? (currentIndex % activeServers.length),
          (currentIndex + 1) % activeServers.length)

/-- `LoadBalancer.leastConnectionsSelection`: arg-min of
`activeConnections` (first wins ties). -/
def leastConnectionsSelection (lb : LBState) : List Server → Option Server
  | [] => none
  | s :: rest => some (rest.foldl
      (fun minServer server =>
        if (getMetrics lb server.id).activeConnections <
           (getMetrics lb minServer.id).activeConnections
        then server else minServer) s)

/-- The subtraction loop of `weightedSelection`. -/
def weightedGo (lb : LBState) : ℚ → List Server → Option Server
  | _, [] => none
  | random, s :: rest =>
      let random := random - (getMetrics lb s.id).weight
      if random ≤ 0 then some s else weightedGo lb random rest

/-- `LoadBalancer.weightedSelection`; `r` is the `Math.random()` draw
(`0 ≤ r < 1`), scaled by the total weight. -/
def weightedSelection (lb : LBState) (activeServers : List Server) (r : ℚ) :
    Option Server :=
  let totalWeight := activeServers.foldl
    (fun sum server => sum + (getMetrics lb server.id).weight) 0
  match weightedGo lb (r * totalWeight) activeServers with
  | some s => some s
  | none => activeServers.head?

/-- `LoadBalancer.leastResponseTimeSelection`: arg-min of the
congestion-adjusted score `avgResponseTime * (1 + activeConnections * 0.1)`. -/
def leastResponseTimeSelection (lb : LBState) : List Server → Option Server
  | [] => none
  | s :: rest => some (rest.foldl
      (fun fastest server =>
        let mc := getMetrics lb server.id
        let mf := getMetrics lb fastest.id
        if mc.avgResponseTime * (1 + mc.activeConnections * 0.1) <
           mf.avgResponseTime * (1 + mf.activeConnections * 0.1)
        then server else fastest) s)

/-- `LoadBalancer.selectServer`: dispatch on the configured algorithm over
the active servers, then count the selection as an in-flight request. -/
def selectServer (lb : LBState) (servers : List Server) (r : ℚ) :
    Option Server × LBState :=
  let activeServers := servers.filter (fun s => s.status = "active")
  if activeServers.isEmpty then (none, lb)
  else
    let (selected, lb) :=
      if lb.algorithm = "least-connections" then
        (leastConnectionsSelection lb activeServers, lb)
      else if lb.algorithm = "weighted" then
        (weightedSelection lb activeServers r, lb)
      else if lb.algorithm = "least-response-time" then
        (leastResponseTimeSelection lb activeServers, lb)
      else
        -- `'round-robin'` and the `default` case coincide in the source.
        let rr := roundRobinSelection activeServers lb.currentIndex
        (rr.1, { lb with currentIndex := rr.2 })
    match selected with
    | some s => (some s, updateMetricsMap s.id "request" none 0 0 0 lb)
    | none => (none, lb)

/-- JS `a || b` on an optional string (empty string is falsy). -/
def orDefault (o : Option String) (d : String) : String :=
  match o with
  | some s => if s = "" then d else s
  | none => d

/-- The request body / work item handed to the order-creation paths. -/
structure OrderRequest where
  id : Option String
  productId : Option String
  productName : Option String
  quantity : ℤ
  totalPrice : ℚ
deriving DecidableEq, Repr

/-- Outcome of `LoadBalancer.processOrder`. -/
inductive ProcessResult : Type
  | noServers
  | success (order : Order) (serverId : ℕ)
deriving DecidableEq, Repr

/-- `LoadBalancer.processOrder` (synchronous part): select a server, append
the order to it, and decrement the product's stock only when the stock
suffices — an insufficient request is *not* rejected, the decrement is merely
skipped and the order still succeeds.  `genId` stands for the generated
`ORD-…` id, `timestamp` for `new Date().toISOString()`, `r` for the
`Math.random()` draw of `selectServer`.  The deferred completion callback
(`updateMetrics 'response'` after the simulated delay) is not part of this
synchronous transition. -/
def processOrder (orderData : OrderRequest) (genId timestamp : String) (r : ℚ)
    (lb : LBState) (servers : List Server) :
    ProcessResult × LBState × List Server :=
  match selectServer lb servers r with
  | (none, lb) => (.noServers, lb, servers)
  | (some selectedServer, lb) =>
      let order : Order :=
        { id := orDefault orderData.id genId,
          productId := orderData.productId,
          productName := orderData.productName,
          quantity := orderData.quantity,
          totalPrice := orderData.totalPrice,
          handledBy := selectedServer.id,
          timestamp := timestamp,
          status := none }
      let servers := updateFirst (fun s => s.id = selectedServer.id)
        (fun s => { s with orders := s.orders ++ [order] }) servers
      let decrementIfSufficient : Server → Server := fun s =>
        let products' := updateFirst (fun p => some p.id = orderData.productId)
          (fun p =>
            if p.stock ≥ orderData.quantity
            then { p with stock := p.stock - orderData.quantity }
            else p) s.products
        { s with products := products' }
      let servers :=
        if isTruthy orderData.productId then
          updateFirst (fun s => s.id = selectedServer.id) decrementIfSufficient servers
        else servers
      (.success order selectedServer.id, lb, servers)

/-- The algorithms accepted by `setAlgorithm`. -/
def validAlgorithms : List String :=
  ["round-robin", "least-connections", "weighted", "least-response-time"]

/-- `LoadBalancer.setAlgorithm`: accept a known algorithm and return `true`,
reject anything else unchanged with `false`. -/
def setAlgorithm (algorithm : String) (lb : LBState) : Bool × LBState :=
  if algorithm ∈ validAlgorithms then (true, { lb with algorithm := algorithm })
  else (false, lb)

/-! ## REST order creation (`POST /api/orders` route handler) -/

/-- Outcome of the `POST /api/orders` handler. -/
inductive PostOrderResult : Type
  | noLeader
  | insufficientStock
  | created (order : Order)
deriving DecidableEq, Repr

/-- The `POST /api/orders` handler: build the order, push it onto the
leader, then check the stock — in this source order, so the push has already
happened when an insufficient request is answered with the 400
`Insufficient stock` response.  On the non-rejecting paths the stock is
decremented and the order replicated to every other active server. -/
def postOrder (body : OrderRequest) (genId timestamp : String) (st : BullyState) :
    PostOrderResult × BullyState :=
  match getLeader st with
  | none => (.noLeader, st)
  | some leader =>
      let order : Order :=
        { id := genId, productId := body.productId,
          productName := body.productName, quantity := body.quantity,
          totalPrice := body.totalPrice, handledBy := leader.id,
          timestamp := timestamp, status := some "completed" }
      let servers := updateFirst (fun s => s.id = leader.id)
        (fun s => { s with orders := s.orders ++ [order] }) st.servers
      match leader.products.find? (fun p => some p.id = body.productId) with
      | some product =>
          if product.stock < body.quantity then
            (.insufficientStock, { st with servers := servers })
          else
            let decrement : Server → Server := fun s =>
              let products' := updateFirst (fun p => some p.id = body.productId)
                (fun p => { p with stock := p.stock - body.quantity }) s.products
              { s with products := products' }
            let servers := updateFirst (fun s => s.id = leader.id) decrement servers
            let servers := (replicate (.order order) "create" leader.id servers).2
            (.created order, { st with servers := servers })
      | none =>
          let servers := (replicate (.order order) "create" leader.id servers).2
          (.created order, { st with servers := servers })

/-! ## Initial system state (main entry point) -/

/-- The seed product catalogue every server starts from. -/
def initialProducts : List Product :=
  [⟨"PRD-1", "Laptop Pro 15\"", 1299.99, 50, "Electronics"⟩,
   ⟨"PRD-2", "Wireless Mouse", 29.99, 200, "Accessories"⟩,
   ⟨"PRD-3", "Mechanical Keyboard", 89.99, 75, "Accessories"⟩,
   ⟨"PRD-4", "27\" Monitor 4K", 449.99, 30, "Electronics"⟩,
   ⟨"PRD-5", "USB-C Hub", 49.99, 150, "Accessories"⟩,
   ⟨"PRD-6", "Webcam HD", 79.99, 100, "Electronics"⟩,
   ⟨"PRD-7", "Headphones Noise-Canceling", 199.99, 60, "Audio"⟩,
   ⟨"PRD-8", "External SSD 1TB", 129.99, 80, "Storage"⟩]

/-- One freshly booted server instance. -/
def mkServer (n : ℕ) : Server :=
  { id := n, name := "Server-" ++ toString n, status := "active",
    isLeader := false, products := initialProducts, orders := [] }

/-- The six server instances created at process start. -/
def initialServers : List Server :=
  [mkServer 1, mkServer 2, mkServer 3, mkServer 4, mkServer 5, mkServer 6]

/-- Bully-algorithm state right after construction (before
`initializeLeader`). -/
def initialBullyState : BullyState :=
  { servers := initialServers, currentLeader := none, electionInProgress := false }

/-- Load-balancer state right after construction. -/
def initialLBState : LBState :=
  { algorithm := "round-robin", currentIndex := 0,
    serverMetrics := initialServers.map (fun s => (s.id, initialMetrics)) }

/-! ## Operation machine over the bully/lifecycle API (for reachability
claims). -/

/-- The externally triggerable operations on the registry. -/
inductive Op : Type
  | initLeader
  | startElect (initiatorId : ℕ)
  | elect (serverId : ℕ)
  | crash (serverId : ℕ)
  | restart (serverId : ℕ)
deriving DecidableEq, Repr

/-- One operation applied to the registry state. -/
def applyOp (op : Op) (st : BullyState) : BullyState :=
  match op with
  | .initLeader => (initializeLeader st).2
  | .startElect n => (startElection n st).2
  | .elect n => (electLeader n st).2
  | .crash n => handleServerCrash n st
  | .restart n => handleServerRestart n st

/-- A sequence of operations applied left to right. -/
def runOps (ops : List Op) (st : BullyState) : BullyState :=
  ops.foldl (fun st op => applyOp op st) st

/-- Number of servers with the `isLeader` flag set. -/
def countLeaders (st : BullyState) : ℕ :=
  st.servers.countP (fun s => s.isLeader)

/-- Socket-manager `handleOrderPlacement` (pure part): process the order via
the load balancer and, whenever `processOrder` reports success, replicate the
created order to every other active server. -/
def handleOrderPlacement (orderData : OrderRequest) (genId timestamp : String)
    (r : ℚ) (lb : LBState) (servers : List Server) :
    Option Order × LBState × List Server :=
  match processOrder orderData genId timestamp r lb servers with
  | (.noServers, lb, servers) => (none, lb, servers)
  | (.success order serverId, lb, servers) =>
      (some order, lb, (replicate (.order order) "create" serverId servers).2)

/-- Whether a `processOrder` outcome is the success case. -/
def processSucceeded : ProcessResult → Bool
  | .success _ _ => true
  | .noServers => false

/-- The server a successful `processOrder` outcome was dispatched to. -/
def processHandledBy : ProcessResult → Option ℕ
  | .success _ serverId => some serverId
  | .noServers => none

/-- A work item requesting 51 units of `PRD-1`, whose seed stock is 50:
one unit more than available. -/
def c3Request : OrderRequest :=
  { id := none, productId := some "PRD-1", productName := some "Laptop",
    quantity := 51, totalPrice := 66299.49 }

/-- Nine round-robin selections in sequence over a fixed active list,
collecting the selected servers and threading the cursor. -/
def rrRun (activeServers : List Server) : ℕ → ℕ → List (Option Server) × ℕ
  | idx, 0 => ([], idx)
  | idx, n + 1 =>
      let sel := roundRobinSelection activeServers idx
      let rest := rrRun activeServers sel.2 n
      (sel.1 :: rest.1, rest.2)

/-- One recorded `updateMetrics` invocation: the action string, the optional
response-time sample, and the environment inputs (`Date.now()` and the two
`Math.random()` draws of the health-check branch). -/
structure MetricsCall where
  action : String
  responseTime : Option ℚ
  now : ℚ
  r1 : ℚ
  r2 : ℚ
deriving DecidableEq, Repr

/-- Apply one recorded call to a metrics record. -/
def applyCall (m : Metrics) (c : MetricsCall) : Metrics :=
  updateMetrics m c.action c.responseTime c.now c.r1 c.r2

/-- The safety envelope of a metrics record: connection and queue counters
never negative, health score within `[0, 100]`. -/
def metricsInv (m : Metrics) : Prop :=
  0 ≤ m.activeConnections ∧ 0 ≤ m.queueDepth ∧
  0 ≤ m.healthScore ∧ m.healthScore ≤ 100

/-- The registry state carries a single well-formed coordinator: an active
member whose `isLeader` flag is set, recorded as `currentLeader`, with the
maximal id among all active members. -/
def leaderIsMaxActive (st : BullyState) : Prop :=
  ∃ w, w ∈ st.servers ∧ w.status = "active" ∧ w.isLeader = true ∧
    st.currentLeader = some w.id ∧
    ∀ s ∈ st.servers, s.status = "active" → s.id ≤ w.id

/-- The per-element effect of the replication loop: targets receive the
applied mutation when it succeeds and are kept as-is when it throws;
non-targets are untouched. -/
def repStep (data : RepPayload) (operation : String) (sourceServerId : ℕ)
    (s : Server) : Server :=
  if isRepTarget sourceServerId s then
    match applyReplication data operation s with
    | .ok s' => s'
    | .error _ => s
  else s

/-- A three-node registry for exercising `replicate`: source 1, one active
target 2, one crashed member 3. -/
def repDemoServers : List Server :=
  [mkServer 1, mkServer 2, { mkServer 3 with status := "crashed" }]

/-- A demo product payload for `replicate`. -/
def repDemoProduct : Product :=
  { id := "PRD-9", name := "Demo", price := 1, stock := 5, category := "Misc" }

/-! ## Helper lemmas about the mutation primitives -/

theorem updateFirst_length {α : Type} (p : α → Bool) (f : α → α) (l : List α) :
    (updateFirst p f l).length = l.length := by
  induction l with
  | nil => rfl
  | cons x xs ih =>
      simp only [updateFirst]
      split <;> simp [ih]

theorem map_updateFirst_of_pres {α β : Type} (p : α → Bool) (f : α → α)
    (g : α → β) (hg : ∀ x, g (f x) = g x) (l : List α) :
    (updateFirst p f l).map g = l.map g := by
  induction l with
  | nil => rfl
  | cons x xs ih =>
      simp only [updateFirst]
      split <;> simp [hg, ih]

theorem find?_updateFirst_same {α : Type} (p : α → Bool) (f : α → α)
    (hpres : ∀ x, p (f x) = p x) (l : List α) :
    (updateFirst p f l).find? p = (l.find? p).map f := by
  induction l with
  | nil => rfl
  | cons x xs ih =>
      simp only [updateFirst]
      by_cases hx : p x
      · simp [hx, List.find?_cons, hpres]
      · simp only [if_neg hx]
        simp [List.find?_cons, hx, ih]

theorem find?_updateFirst_of_ne (a b : ℕ) (f : Server → Server)
    (hid : ∀ s, (f s).id = s.id) (hab : a ≠ b) (l : List Server) :
    (updateFirst (fun s => s.id = b) f l).find? (fun s => s.id = a)
      = l.find? (fun s => s.id = a) := by
  induction l with
  | nil => rfl
  | cons x xs ih =>
      simp only [updateFirst]
      by_cases hx : x.id = b
      · have hxa : ¬ (x.id = a) := by omega
        have hfa : ¬ ((f x).id = a) := by rw [hid]; omega
        rw [if_pos (by simpa using hx),
            List.find?_cons_of_neg _ (by simpa using hfa),
            List.find?_cons_of_neg _ (by simpa using hxa)]
      · rw [if_neg (by simpa using hx)]
        by_cases hxa : x.id = a
        · rw [List.find?_cons_of_pos _ (by simpa using hxa),
              List.find?_cons_of_pos _ (by simpa using hxa)]
        · rw [List.find?_cons_of_neg _ (by simpa using hxa),
              List.find?_cons_of_neg _ (by simpa using hxa), ih]

theorem find?_eq_some_of_unique {α : Type} (p : α → Bool) (l : List α) (x : α)
    (hx : x ∈ l) (hpx : p x) (huniq : ∀ y ∈ l, p y → y = x) :
    l.find? p = some x := by
  induction l with
  | nil => cases hx
  | cons a as ih =>
      by_cases ha : p a
      · have hax : a = x := huniq a (List.mem_cons_self a as) ha
        rw [List.find?_cons_of_pos _ ha, hax]
      · have hxas : x ∈ as := by
          rcases List.mem_cons.mp hx with h | h
          · exact absurd (h ▸ hpx) ha
          · exact h
        rw [List.find?_cons_of_neg _ ha]
        exact ih hxas (fun y hy hp => huniq y (List.mem_cons_of_mem a hy) hp)

theorem mem_updateFirst_self {α : Type} (p : α → Bool) (f : α → α)
    (l : List α) (x : α) (hx : x ∈ l) (hpx : p x)
    (huniq : ∀ y ∈ l, p y → y = x) :
    f x ∈ updateFirst p f l := by
  induction l with
  | nil => cases hx
  | cons a as ih =>
      simp only [updateFirst]
      by_cases ha : p a
      · have hax : a = x := huniq a (List.mem_cons_self a as) ha
        subst hax
        rw [if_pos ha]
        exact List.mem_cons_self _ _
      · have hxas : x ∈ as := by
          rcases List.mem_cons.mp hx with h | h
          · exact absurd (h ▸ hpx) ha
          · exact h
        simp only [if_neg ha]
        exact List.mem_cons_of_mem a
          (ih hxas (fun y hy hp => huniq y (List.mem_cons_of_mem a hy) hp))

theorem mem_updateFirst_cases {α : Type} (p : α → Bool) (f : α → α)
    (l : List α) (y : α) (hy : y ∈ updateFirst p f l) :
    y ∈ l ∨ ∃ x, x ∈ l ∧ p x = true ∧ y = f x := by
  induction l with
  | nil => cases hy
  | cons a as ih =>
      simp only [updateFirst] at hy
      by_cases ha : p a
      · rw [if_pos ha] at hy
        rcases List.mem_cons.mp hy with h | h
        · exact Or.inr ⟨a, List.mem_cons_self a as, ha, h⟩
        · exact Or.inl (List.mem_cons_of_mem a h)
      · rw [if_neg ha] at hy
        rcases List.mem_cons.mp hy with h | h
        · exact Or.inl (h ▸ List.mem_cons_self a as)
        · rcases ih h with h' | ⟨x, hx, hpx, hxy⟩
          · exact Or.inl (List.mem_cons_of_mem a h')
          · exact Or.inr ⟨x, List.mem_cons_of_mem a hx, hpx, hxy⟩

theorem countP_updateFirst_le_succ {α : Type} (p q : α → Bool) (f : α → α)
    (l : List α) :
    (updateFirst p f l).countP q ≤ l.countP q + 1 := by
  induction l with
  | nil => simp [updateFirst]
  | cons x xs ih =>
      simp only [updateFirst]
      by_cases hp : p x
      · rw [if_pos hp, List.countP_cons, List.countP_cons]
        have h1 : (if q (f x) then 1 else 0) ≤ 1 := by split <;> omega
        omega
      · rw [if_neg hp, List.countP_cons, List.countP_cons]
        omega

theorem countP_updateFirst_le_of_false {α : Type} (p q : α → Bool) (f : α → α)
    (hq : ∀ x, q (f x) = false) (l : List α) :
    (updateFirst p f l).countP q ≤ l.countP q := by
  induction l with
  | nil => simp [updateFirst]
  | cons x xs ih =>
      simp only [updateFirst]
      by_cases hp : p x
      · rw [if_pos hp, List.countP_cons, List.countP_cons]
        have h0 : (if q (f x) then 1 else 0) = 0 := by simp [hq]
        omega
      · rw [if_neg hp, List.countP_cons, List.countP_cons]
        omega

theorem countP_updateFirst_eq_of_pres {α : Type} (p q : α → Bool) (f : α → α)
    (hq : ∀ x, q (f x) = q x) (l : List α) :
    (updateFirst p f l).countP q = l.countP q := by
  induction l with
  | nil => simp [updateFirst]
  | cons x xs ih =>
      simp only [updateFirst]
      by_cases hp : p x
      · rw [if_pos hp, List.countP_cons, List.countP_cons, hq]
      · rw [if_neg hp, List.countP_cons, List.countP_cons, ih]

theorem reduceMaxServer_eq_none {l : List Server} :
    reduceMaxServer l = none ↔ l = [] := by
  cases l <;> simp [reduceMaxServer]

theorem foldlMax_mem (as : List Server) (a : Server) :
    as.foldl (fun max s => if s.id > max.id then s else max) a = a ∨
    as.foldl (fun max s => if s.id > max.id then s else max) a ∈ as := by
  induction as generalizing a with
  | nil => exact Or.inl rfl
  | cons b bs ih =>
      simp only [List.foldl_cons]
      rcases ih (if b.id > a.id then b else a) with h | h
      · rw [h]
        split
        · exact Or.inr (List.mem_cons_self b bs)
        · exact Or.inl rfl
      · exact Or.inr (List.mem_cons_of_mem b h)

theorem foldlMax_le (as : List Server) : ∀ (a y : Server), (y = a ∨ y ∈ as) →
    y.id ≤ (as.foldl (fun max s => if s.id > max.id then s else max) a).id := by
  induction as with
  | nil =>
      intro a y hy
      rcases hy with rfl | h
      · exact le_refl _
      · cases h
  | cons b bs ih =>
      intro a y hy
      simp only [List.foldl_cons]
      have hstep : a.id ≤ (if b.id > a.id then b else a).id ∧
          b.id ≤ (if b.id > a.id then b else a).id := by
        constructor <;> (split <;> omega)
      rcases hy with rfl | h
      · exact le_trans hstep.1 (ih _ _ (Or.inl rfl))
      · rcases List.mem_cons.mp h with rfl | h'
        · exact le_trans hstep.2 (ih _ _ (Or.inl rfl))
        · exact ih _ _ (Or.inr h')

theorem reduceMaxServer_spec (l : List Server) (x : Server)
    (h : reduceMaxServer l = some x) :
    x ∈ l ∧ ∀ y ∈ l, y.id ≤ x.id := by
  cases l with
  | nil => cases h
  | cons a as =>
      simp only [reduceMaxServer, Option.some.injEq] at h
      subst h
      constructor
      · rcases foldlMax_mem as a with h | h
        · rw [h]; exact List.mem_cons_self a as
        · exact List.mem_cons_of_mem a h
      · intro y hy
        rcases List.mem_cons.mp hy with rfl | h'
        · exact foldlMax_le as y y (Or.inl rfl)
        · exact foldlMax_le as a y (Or.inr h')

end DsStock

namespace DsStock

/-! Sanity checks of the embedding on tiny inputs. -/

example :
    (initializeLeader
      { servers := [⟨1, "Server-1", "active", false, [], []⟩,
                    ⟨2, "Server-2", "active", false, [], []⟩],
        currentLeader := none, electionInProgress := false }).2.currentLeader
    = some 2 := by decide

example :
    (startElection 1
      { servers := [⟨1, "Server-1", "active", false, [], []⟩,
                    ⟨2, "Server-2", "active", false, [], []⟩],
        currentLeader := none, electionInProgress := false }).2.currentLeader
    = some 2 := by decide

end DsStock

namespace DsStock

/-! ## Claim theorems -/

/-- C5: whenever `electionInProgress` is true, `startElection` reports
failure (`null`, i.e. `ElectionAlreadyInProgress`) and leaves the entire
registry state — every member and the recorded coordinator — unchanged. -/
theorem startElection_inProgress_noop (st : BullyState) (initiatorId : ℕ)
    (h : st.electionInProgress = true) :
    startElection initiatorId st = (none, st) := by
  simp [startElection, h]

theorem startElection_inProgress_noop_witness :
    startElection 3 ⟨initialServers, some 6, true⟩
      = (none, ⟨initialServers, some 6, true⟩) :=
  startElection_inProgress_noop ⟨initialServers, some 6, true⟩ 3 rfl

/-- C9: `setAlgorithm` accepts exactly the four known algorithm names,
switching to the named algorithm and returning `true`; any other string is
rejected with `false` and the current algorithm is kept. -/
theorem setAlgorithm_validates (algorithm : String) (lb : LBState) :
    (algorithm ∈ validAlgorithms →
      setAlgorithm algorithm lb = (true, { lb with algorithm := algorithm })) ∧
    (algorithm ∉ validAlgorithms → setAlgorithm algorithm lb = (false, lb)) := by
  refine ⟨fun h => ?_, fun h => ?_⟩
  · simp [setAlgorithm, h]
  · simp [setAlgorithm, h]

theorem setAlgorithm_validates_witness :
    setAlgorithm "weighted" initialLBState
      = (true, { initialLBState with algorithm := "weighted" }) ∧
    setAlgorithm "bogus" initialLBState = (false, initialLBState) :=
  ⟨(setAlgorithm_validates "weighted" initialLBState).1 (by decide),
   (setAlgorithm_validates "bogus" initialLBState).2 (by decide)⟩

/-- C7: on the six freshly booted servers with coordinator 6, crashing 6
elects 5; crashing 5 while 3 is down elects 4 from the active set {1,2,4};
restarting 3 re-runs the election with initiator 3 and 4 stays coordinator. -/
theorem crash_restart_scenario :
    (let st0 := (initializeLeader initialBullyState).2
     st0.currentLeader = some 6 ∧
     (let st1 := handleServerCrash 6 st0
      st1.currentLeader = some 5 ∧
      (let st3 := handleServerCrash 5 (handleServerCrash 3 st1)
       st3.currentLeader = some 4 ∧
       (handleServerRestart 3 st3).currentLeader = some 4))) := by
  decide

/-- C2 (counterexample): from the initial state, `electLeader 3` followed by
`initializeLeader` leaves two members with `isLeader = true`, because
`initializeLeader` sets the maximal active member's flag without clearing the
flags of the others.  The claimed invariant fails on this reachable state. -/
theorem two_leaders_after_elect_then_initialize :
    countLeaders (runOps [Op.elect 3, Op.initLeader] initialBullyState) = 2 := by
  decide

/-- C3 (code evaluated at the failing input): a work item asking for 51
units of `PRD-1` (stock 50) against the freshly initialized system.  The
REST handler answers `Insufficient stock` but has already appended the order
to the leader (server 6) — stock stays 50 and nothing is replicated; and the
load-balancer dispatch path does not reject at all: `processOrder` succeeds,
appends the order to the selected server, and the socket-manager placement
path then replicates it to every server. -/
theorem insufficient_stock_not_rejected_before_mutation :
    (let st0 := (initializeLeader initialBullyState).2
     let res := postOrder c3Request "ORD-1" "T" st0
     res.1 = PostOrderResult.insufficientStock ∧
     (res.2.servers.find? (fun s => s.id = 6)).map (fun s => s.orders.length)
       = some 1 ∧
     (res.2.servers.find? (fun s => s.id = 6)).map
         (fun s => (s.products.filter (fun p => p.id = "PRD-1")).map
           (fun p => p.stock)) = some [50] ∧
     (∀ s ∈ res.2.servers, s.id ≠ 6 → s.orders = []) ∧
     (let placed := handleOrderPlacement c3Request "ORD-2" "T" 0
        initialLBState initialServers
      placed.1.isSome = true ∧
      (placed.2.2.filter (fun s => s.orders.length = 1)).length = 6)) := by
  decide

end DsStock

namespace DsStock

/-- Ids are preserved when every server's `isLeader` flag is cleared. -/
theorem map_id_clearLeaders (l : List Server) :
    ((l.map (fun s => { s with isLeader := false })).map (fun s => s.id))
      = l.map (fun s => s.id) := by
  rw [List.map_map]
  rfl

/-- What a successful `electLeader` establishes: the named active server is
recorded as coordinator with its flag set, and every server of the resulting
registry corresponds by id and status to one of the original registry. -/
theorem electLeader_spec (st : BullyState) (t : Server)
    (hnd : (st.servers.map (fun s => s.id)).Nodup)
    (ht : t ∈ st.servers) (hact : t.status = "active") :
    (electLeader t.id st).2.currentLeader = some t.id ∧
    { t with isLeader := true } ∈ (electLeader t.id st).2.servers ∧
    (∀ y ∈ (electLeader t.id st).2.servers,
      ∃ s, s ∈ st.servers ∧ y.id = s.id ∧ y.status = s.status) := by
  have hinj := List.inj_on_of_nodup_map hnd
  set clearf : Server → Server := fun s => { s with isLeader := false } with hclearf
  have hcmem : clearf t ∈ st.servers.map clearf := List.mem_map_of_mem clearf ht
  have hcuniq : ∀ y ∈ st.servers.map clearf, (y.id = t.id) → y = clearf t := by
    intro y hy hyid
    rcases List.mem_map.mp hy with ⟨s, hs, rfl⟩
    have : s = t := hinj hs ht (by simpa [hclearf] using hyid)
    rw [this]
  have hfind : (st.servers.map clearf).find? (fun s => s.id = t.id)
      = some (clearf t) :=
    find?_eq_some_of_unique _ _ _ hcmem (by simp [hclearf])
      (fun y hy hp => hcuniq y hy (by simpa using hp))
  have hcorr : ∀ y ∈ updateFirst (fun s => s.id = t.id)
      (fun s => { s with isLeader := true }) (st.servers.map clearf),
      ∃ s, s ∈ st.servers ∧ y.id = s.id ∧ y.status = s.status := by
    intro y hy
    rcases mem_updateFirst_cases _ _ _ _ hy with h | ⟨x, hx, _, rfl⟩
    · rcases List.mem_map.mp h with ⟨s, hs, rfl⟩
      exact ⟨s, hs, rfl, rfl⟩
    · rcases List.mem_map.mp hx with ⟨s, hs, rfl⟩
      exact ⟨s, hs, rfl, rfl⟩
  have hmem : { t with isLeader := true } ∈ updateFirst (fun s => s.id = t.id)
      (fun s => { s with isLeader := true }) (st.servers.map clearf) := by
    have := mem_updateFirst_self (fun s => s.id = t.id)
      (fun s => { s with isLeader := true }) (st.servers.map clearf)
      (clearf t) hcmem (by simp [hclearf])
      (fun y hy hp => hcuniq y hy (by simpa using hp))
    simpa [hclearf] using this
  simp only [electLeader, hfind]
  rw [if_pos (by simpa [hclearf] using hact)]
  exact ⟨rfl, hmem, hcorr⟩

/-- C1: with unique ids, whenever at least one member is active,
`initializeLeader` — and any `startElection` that runs to completion (no
election already in progress, active initiator) — records as coordinator the
active member with the maximum id and sets its `isLeader` flag. -/
theorem bully_leader_is_max_active (st : BullyState)
    (hnd : (st.servers.map (fun s => s.id)).Nodup) :
    ((st.servers.filter (fun s => s.status = "active")) ≠ [] →
      leaderIsMaxActive (initializeLeader st).2) ∧
    (∀ initiatorId initiator, st.electionInProgress = false →
      initiator ∈ st.servers → initiator.id = initiatorId →
      initiator.status = "active" →
      leaderIsMaxActive (startElection initiatorId st).2) := by
  have hinj := List.inj_on_of_nodup_map hnd
  constructor
  · -- initializeLeader
    intro hne
    obtain ⟨leader, hred⟩ :
        ∃ x, reduceMaxServer (st.servers.filter (fun s => s.status = "active"))
          = some x := by
      cases hcase : reduceMaxServer (st.servers.filter (fun s => s.status = "active")) with
      | none => exact absurd (reduceMaxServer_eq_none.mp hcase) hne
      | some x => exact ⟨x, rfl⟩
    obtain ⟨hlmem, hlmax⟩ := reduceMaxServer_spec _ _ hred
    have hlsrv : leader ∈ st.servers := (List.mem_filter.mp hlmem).1
    have hlact : leader.status = "active" := by
      simpa using (List.mem_filter.mp hlmem).2
    have huniq : ∀ y ∈ st.servers, (y.id = leader.id) → y = leader :=
      fun y hy hyid => hinj hy hlsrv hyid
    refine ⟨{ leader with isLeader := true }, ?_, hlact, rfl, ?_, ?_⟩
    · simp only [initializeLeader, hred]
      exact mem_updateFirst_self _ _ _ leader hlsrv (by simp)
        (fun y hy hp => huniq y hy (by simpa using hp))
    · simp only [initializeLeader, hred]
    · simp only [initializeLeader, hred]
      intro s hs hsact
      rcases mem_updateFirst_cases _ _ _ _ hs with h | ⟨x, hx, hpx, rfl⟩
      · have : s ∈ st.servers.filter (fun s => s.status = "active") :=
          List.mem_filter.mpr ⟨h, by simpa using hsact⟩
        exact hlmax s this
      · have : x = leader := huniq x hx (by simpa using hpx)
        subst this
        have : x ∈ st.servers.filter (fun s => s.status = "active") :=
          List.mem_filter.mpr ⟨hx, by simpa using hsact⟩
        exact hlmax x this
  · -- startElection running to completion
    intro initiatorId initiator hip hmem hid hact
    subst hid
    have hfind : st.servers.find? (fun s => s.id = initiator.id) = some initiator :=
      find?_eq_some_of_unique _ _ _ hmem (by simp)
        (fun y hy hp => hinj hy hmem (by simpa using hp))
    have hnot : ¬ (initiator.status ≠ "active") := fun h => h hact
    set st₁ : BullyState := { st with electionInProgress := true } with hst₁
    have hnd₁ : (st₁.servers.map (fun s => s.id)).Nodup := hnd
    simp only [startElection, hip, if_false, Bool.false_eq_true, hfind]
    rw [if_neg hnot]
    cases hred : reduceMaxServer (st.servers.filter
        (fun s => s.id > initiator.id ∧ s.status = "active")) with
    | none =>
        -- no higher active server: the initiator itself wins
        have hempty : st.servers.filter
            (fun s => s.id > initiator.id ∧ s.status = "active") = [] :=
          reduceMaxServer_eq_none.mp hred
        have hspec := electLeader_spec st₁ initiator hnd₁ hmem hact
        refine ⟨{ initiator with isLeader := true },
          hspec.2.1, hact, rfl, hspec.1, ?_⟩
        intro s hs hsact
        obtain ⟨s₀, hs₀, hsid, hsst⟩ := hspec.2.2 s hs
        have hs₀act : s₀.status = "active" := hsst ▸ hsact
        have hngt : ¬ (s₀.id > initiator.id) := by
          intro hgt
          have : s₀ ∈ st.servers.filter
              (fun s => s.id > initiator.id ∧ s.status = "active") :=
            List.mem_filter.mpr ⟨hs₀, by simp [hgt, hs₀act]⟩
          rw [hempty] at this
          cases this
        rw [hsid]
        show s₀.id ≤ initiator.id
        omega
    | some highest =>
        obtain ⟨hhmem, hhmax⟩ := reduceMaxServer_spec _ _ hred
        have hhsrv : highest ∈ st.servers := (List.mem_filter.mp hhmem).1
        have hhprop := (List.mem_filter.mp hhmem).2
        have hhgt : highest.id > initiator.id := by
          simp only [decide_eq_true_eq] at hhprop
          exact hhprop.1
        have hhact : highest.status = "active" := by
          simp only [decide_eq_true_eq] at hhprop
          exact hhprop.2
        have hspec := electLeader_spec st₁ highest hnd₁ hhsrv hhact
        refine ⟨{ highest with isLeader := true },
          hspec.2.1, hhact, rfl, hspec.1, ?_⟩
        intro s hs hsact
        obtain ⟨s₀, hs₀, hsid, hsst⟩ := hspec.2.2 s hs
        have hs₀act : s₀.status = "active" := hsst ▸ hsact
        rw [hsid]
        show s₀.id ≤ highest.id
        by_cases hgt : s₀.id > initiator.id
        · have : s₀ ∈ st.servers.filter
              (fun s => s.id > initiator.id ∧ s.status = "active") :=
            List.mem_filter.mpr ⟨hs₀, by simp [hgt, hs₀act]⟩
          exact hhmax s₀ this
        · omega

end DsStock

namespace DsStock

theorem bully_leader_is_max_active_witness :
    leaderIsMaxActive (initializeLeader initialBullyState).2 ∧
    leaderIsMaxActive (startElection 3 initialBullyState).2 :=
  ⟨(bully_leader_is_max_active initialBullyState (by decide)).1 (by decide),
   (bully_leader_is_max_active initialBullyState (by decide)).2 3 (mkServer 3)
     rfl (by simp [initialBullyState, initialServers]) rfl rfl⟩

end DsStock

namespace DsStock

theorem countP_isLeader_cleared (l : List Server) :
    (l.map (fun s => { s with isLeader := false })).countP
      (fun s => s.isLeader) = 0 := by
  rw [List.countP_eq_zero]
  intro y hy
  rcases List.mem_map.mp hy with ⟨s, _, rfl⟩
  simp

theorem countLeaders_electLeader_le_one (n : ℕ) (st : BullyState) :
    countLeaders (electLeader n st).2 ≤ 1 := by
  simp only [countLeaders, electLeader]
  split
  · exact le_trans (le_of_eq (countP_isLeader_cleared st.servers)) (Nat.zero_le 1)
  · split
    · refine le_trans (countP_updateFirst_le_succ _ _ _ _) ?_
      rw [countP_isLeader_cleared]
    · exact le_trans (le_of_eq (countP_isLeader_cleared st.servers)) (Nat.zero_le 1)

theorem countLeaders_startElection_le_one (n : ℕ) (st : BullyState)
    (h : countLeaders st ≤ 1) :
    countLeaders (startElection n st).2 ≤ 1 := by
  simp only [countLeaders, startElection]
  split
  · exact h
  · split
    · exact h
    · split
      · exact h
      · split
        · exact countLeaders_electLeader_le_one _ _
        · exact countLeaders_electLeader_le_one _ _

theorem countLeaders_initializeLeader_le_one (st : BullyState)
    (h : countLeaders st = 0) :
    countLeaders (initializeLeader st).2 ≤ 1 := by
  simp only [countLeaders, initializeLeader] at h ⊢
  split
  · exact le_trans (le_of_eq h) (Nat.zero_le 1)
  · refine le_trans (countP_updateFirst_le_succ _ _ _ _) ?_
    omega

theorem countLeaders_handleServerCrash_le_one (n : ℕ) (st : BullyState)
    (h : countLeaders st ≤ 1) :
    countLeaders (handleServerCrash n st) ≤ 1 := by
  have hupd := countP_updateFirst_le_of_false (fun s : Server => s.id = n)
      (fun s => s.isLeader)
      (fun s => { s with status := "crashed", isLeader := false })
      (fun x => rfl) st.servers
  have h' : st.servers.countP (fun s => s.isLeader) ≤ 1 := h
  simp only [countLeaders, handleServerCrash]
  split
  · exact h'
  · split
    · exact h'
    · split
      · split
        · exact countLeaders_startElection_le_one _ _ (le_trans hupd h')
        · exact le_trans hupd h'
      · exact le_trans hupd h'

theorem countLeaders_syncWithLeader (a b : ℕ) (l : List Server) :
    ((syncWithLeader a b l).2).countP (fun s => s.isLeader)
      = l.countP (fun s => s.isLeader) := by
  simp only [syncWithLeader]
  split
  · simp only
    apply countP_updateFirst_eq_of_pres
    intro x
    rfl
  · rfl

theorem countLeaders_handleServerRestart_le_one (n : ℕ) (st : BullyState)
    (h : countLeaders st ≤ 1) :
    countLeaders (handleServerRestart n st) ≤ 1 := by
  have hre : (updateFirst (fun s => s.id = n)
      (fun s => { s with status := "active" }) st.servers).countP
      (fun s => s.isLeader) ≤ 1 := by
    rw [countP_updateFirst_eq_of_pres (fun s : Server => s.id = n)
      (fun s => s.isLeader) (fun s => { s with status := "active" })
      (fun x => rfl)]
    exact h
  simp only [countLeaders, handleServerRestart]
  split
  · exact h
  · split
    · exact h
    · split
      · refine countLeaders_startElection_le_one _ _ ?_
        show ((syncWithLeader _ _ _).2).countP (fun s => s.isLeader) ≤ 1
        rw [countLeaders_syncWithLeader]
        exact hre
      · exact countLeaders_startElection_le_one _ _ hre

theorem countLeaders_runOps_le_one (ops : List Op) (st : BullyState)
    (h : countLeaders st ≤ 1) (hops : ∀ o ∈ ops, o ≠ Op.initLeader) :
    countLeaders (runOps ops st) ≤ 1 := by
  induction ops generalizing st with
  | nil => exact h
  | cons o os ih =>
      have hstep : countLeaders (applyOp o st) ≤ 1 := by
        cases o with
        | initLeader =>
            exact absurd rfl (hops Op.initLeader (List.mem_cons_self _ _))
        | startElect m => exact countLeaders_startElection_le_one m st h
        | elect m => exact countLeaders_electLeader_le_one m st
        | crash m => exact countLeaders_handleServerCrash_le_one m st h
        | restart m => exact countLeaders_handleServerRestart_le_one m st h
      exact ih (applyOp o st) hstep
        (fun o' ho' => hops o' (List.mem_cons_of_mem o ho'))

end DsStock

namespace DsStock

/-- C2 (amended): starting from the six active leaderless members, every
sequence of `startElection`, `electLeader`, `handleServerCrash` and
`handleServerRestart` operations — optionally preceded by `initializeLeader`
as the very first operation — keeps at most one member's `isLeader` flag
set.  (The claim as stated, which also allows `initializeLeader` at any
later position, fails: see the counterexample theorem.) -/
theorem at_most_one_leader_reachable (ops : List Op)
    (hops : ∀ o ∈ ops, o ≠ Op.initLeader) :
    countLeaders (runOps ops initialBullyState) ≤ 1 ∧
    countLeaders (runOps ops (applyOp Op.initLeader initialBullyState)) ≤ 1 :=
  ⟨countLeaders_runOps_le_one ops initialBullyState (by decide) hops,
   countLeaders_runOps_le_one ops (applyOp Op.initLeader initialBullyState)
     (by decide) hops⟩

theorem at_most_one_leader_reachable_witness :
    countLeaders (runOps [Op.crash 6, Op.restart 6] initialBullyState) ≤ 1 ∧
    countLeaders (runOps [Op.crash 6, Op.restart 6]
      (applyOp Op.initLeader initialBullyState)) ≤ 1 :=
  at_most_one_leader_reachable [Op.crash 6, Op.restart 6] (by decide)

end DsStock

namespace DsStock

theorem countP_add_countP_not {α : Type} (p : α → Bool) (l : List α) :
    l.countP p + l.countP (fun a => !(p a)) = l.length := by
  induction l with
  | nil => simp
  | cons x xs ih =>
      simp only [List.countP_cons, List.length_cons]
      by_cases hx : p x <;> simp [hx] <;> omega

theorem replicateGo_spec (data : RepPayload) (operation : String)
    (sourceServerId : ℕ) (l : List Server) :
    (replicateGo data operation sourceServerId l).1
      = l.countP (fun s => isRepTarget sourceServerId s &&
          (applyReplication data operation s).isOk) ∧
    (replicateGo data operation sourceServerId l).2.1
      = l.countP (fun s => isRepTarget sourceServerId s &&
          !(applyReplication data operation s).isOk) ∧
    (replicateGo data operation sourceServerId l).2.2
      = l.map (repStep data operation sourceServerId) := by
  induction l with
  | nil => exact ⟨rfl, rfl, rfl⟩
  | cons s rest ih =>
      obtain ⟨ih1, ih2, ih3⟩ := ih
      simp only [replicateGo, List.countP_cons, List.map_cons, repStep]
      by_cases ht : isRepTarget sourceServerId s
      · rw [if_pos ht]
        cases happ : applyReplication data operation s with
        | ok s' =>
            refine ⟨?_, ?_, ?_⟩
            · simp [ih1, ht, happ, Except.isOk, Except.toBool]
            · simp [ih2, ht, happ, Except.isOk, Except.toBool]
            · simp [ih3, repStep, ht, happ]
        | error e =>
            refine ⟨?_, ?_, ?_⟩
            · simp [ih1, ht, happ, Except.isOk, Except.toBool]
            · simp [ih2, ht, happ, Except.isOk, Except.toBool]
            · simp [ih3, repStep, ht, happ]
      · rw [if_neg ht]
        have ht' : isRepTarget sourceServerId s = false := by simpa using ht
        refine ⟨?_, ?_, ?_⟩
        · simp [ih1, ht']
        · simp [ih2, ht']
        · simp [ih3, repStep, ht']

/-- C4: for every `replicate` call over the active non-source targets: the
reported total is the target count; when the mutation applies cleanly on
every target the result is `{success : N, failed : 0, total : N}`; when it
throws on exactly one target the result is `{success : N-1, failed : 1}`;
and pointwise, every non-target (the source and every crashed member) is
untouched while every target whose application succeeds holds the applied
mutation — one failing target never blocks the rest. -/
theorem replicate_counts_and_isolation (data : RepPayload) (operation : String)
    (sourceServerId : ℕ) (servers : List Server) :
    (replicate data operation sourceServerId servers).1.total
        = (servers.filter (isRepTarget sourceServerId)).length ∧
    ((∀ s ∈ servers.filter (isRepTarget sourceServerId),
        (applyReplication data operation s).isOk = true) →
      (replicate data operation sourceServerId servers).1
        = ⟨(servers.filter (isRepTarget sourceServerId)).length, 0,
           (servers.filter (isRepTarget sourceServerId)).length⟩) ∧
    (((servers.filter (isRepTarget sourceServerId)).countP
        (fun s => !(applyReplication data operation s).isOk)) = 1 →
      (replicate data operation sourceServerId servers).1.success
          = (servers.filter (isRepTarget sourceServerId)).length - 1 ∧
      (replicate data operation sourceServerId servers).1.failed = 1) ∧
    List.Forall₂ (fun s t =>
      ((isRepTarget sourceServerId s = false) → t = s) ∧
      (∀ s', isRepTarget sourceServerId s = true →
        applyReplication data operation s = .ok s' → t = s'))
      servers (replicate data operation sourceServerId servers).2 := by
  obtain ⟨h1, h2, h3⟩ := replicateGo_spec data operation sourceServerId servers
  have hsucc : (replicate data operation sourceServerId servers).1.success
      = (servers.filter (isRepTarget sourceServerId)).countP
        (fun s => (applyReplication data operation s).isOk) := by
    show (replicateGo data operation sourceServerId servers).1 = _
    rw [h1, List.countP_filter]
    exact List.countP_congr (fun s _ => by rw [Bool.and_comm])
  have hfail : (replicate data operation sourceServerId servers).1.failed
      = (servers.filter (isRepTarget sourceServerId)).countP
        (fun s => !(applyReplication data operation s).isOk) := by
    show (replicateGo data operation sourceServerId servers).2.1 = _
    rw [h2, List.countP_filter]
    exact List.countP_congr (fun s _ => by rw [Bool.and_comm])
  refine ⟨rfl, ?_, ?_, ?_⟩
  · -- every target succeeds
    intro hall
    have hs : (replicate data operation sourceServerId servers).1.success
        = (servers.filter (isRepTarget sourceServerId)).length := by
      rw [hsucc]
      exact List.countP_eq_length.mpr hall
    have hf : (replicate data operation sourceServerId servers).1.failed = 0 := by
      rw [hfail, List.countP_eq_zero]
      intro s hsmem
      rw [hall s hsmem]
      simp
    have hrfl : (replicate data operation sourceServerId servers).1
        = ⟨(replicate data operation sourceServerId servers).1.success,
           (replicate data operation sourceServerId servers).1.failed,
           (replicate data operation sourceServerId servers).1.total⟩ := rfl
    rw [hrfl, hs, hf]
    rfl
  · -- exactly one target throws
    intro hone
    have htot := countP_add_countP_not
      (fun s => (applyReplication data operation s).isOk)
      (servers.filter (isRepTarget sourceServerId))
    constructor
    · rw [hsucc]
      omega
    · rw [hfail]
      exact hone
  · -- pointwise isolation
    have : (replicate data operation sourceServerId servers).2
        = servers.map (repStep data operation sourceServerId) := h3
    rw [this, List.forall₂_map_right_iff]
    rw [List.forall₂_same]
    intro x hx
    constructor
    · intro hF
      simp [repStep, hF]
    · intro s' hT happ
      simp [repStep, hT, happ]

theorem replicate_counts_and_isolation_witness :
    (replicate (.product repDemoProduct) "create" 1 repDemoServers).1
      = ⟨1, 0, 1⟩ ∧
    (replicate (.product repDemoProduct) "frobnicate" 1 repDemoServers).1.success
      = 0 ∧
    (replicate (.product repDemoProduct) "frobnicate" 1 repDemoServers).1.failed
      = 1 :=
  ⟨(replicate_counts_and_isolation (.product repDemoProduct) "create" 1
      repDemoServers).2.1 (by decide),
   ((replicate_counts_and_isolation (.product repDemoProduct) "frobnicate" 1
      repDemoServers).2.2.1 (by decide)).1,
   ((replicate_counts_and_isolation (.product repDemoProduct) "frobnicate" 1
      repDemoServers).2.2.1 (by decide)).2⟩

end DsStock

namespace DsStock

/-- C6: `syncWithLeader` on two present ids reports success and makes the
member's `products`/`orders` equal to the leader's at call time; when either
id is absent it reports failure and changes nothing; and because the copy is
deep, a later mutation of the leader's dataset leaves the synced member's
dataset untouched. -/
theorem syncWithLeader_deep_copy (servers : List Server) (serverId leaderId : ℕ) :
    (∀ server leader,
      servers.find? (fun s => s.id = serverId) = some server →
      servers.find? (fun s => s.id = leaderId) = some leader →
      (syncWithLeader serverId leaderId servers).1 = true ∧
      ∃ synced,
        (syncWithLeader serverId leaderId servers).2.find?
          (fun s => s.id = serverId) = some synced ∧
        synced.products = leader.products ∧ synced.orders = leader.orders) ∧
    ((servers.find? (fun s => s.id = serverId) = none ∨
      servers.find? (fun s => s.id = leaderId) = none) →
      syncWithLeader serverId leaderId servers = (false, servers)) ∧
    (serverId ≠ leaderId →
      ∀ (f : List Product → List Product) (g : List Order → List Order),
        (updateFirst (fun s => s.id = leaderId)
          (fun s => { s with products := f s.products, orders := g s.orders })
          (syncWithLeader serverId leaderId servers).2).find?
            (fun s => s.id = serverId)
          = (syncWithLeader serverId leaderId servers).2.find?
              (fun s => s.id = serverId)) := by
  refine ⟨?_, ?_, ?_⟩
  · intro server leader hs hl
    simp only [syncWithLeader, hs, hl]
    refine ⟨by simp, ?_⟩
    have hsame := find?_updateFirst_same (fun s => s.id = serverId)
      (fun s => { s with products := leader.products, orders := leader.orders })
      (fun x => rfl) servers
    rw [hsame, hs]
    exact ⟨_, rfl, rfl, rfl⟩
  · intro h
    cases hfs : servers.find? (fun s => s.id = serverId) with
    | none => simp [syncWithLeader, hfs]
    | some server =>
        rcases h with h | h
        · rw [hfs] at h
          cases h
        · simp [syncWithLeader, hfs, h]
  · intro hne f g
    exact find?_updateFirst_of_ne serverId leaderId
      (fun s => { s with products := f s.products, orders := g s.orders })
      (fun s => rfl) hne _

theorem syncWithLeader_deep_copy_witness :
    ((syncWithLeader 3 6 initialServers).1 = true ∧
     ∃ synced,
       (syncWithLeader 3 6 initialServers).2.find? (fun s => s.id = 3)
         = some synced ∧
       synced.products = (mkServer 6).products ∧
       synced.orders = (mkServer 6).orders) ∧
    syncWithLeader 99 6 initialServers = (false, initialServers) ∧
    (updateFirst (fun s => s.id = 6)
        (fun s => { s with products := [], orders := [] })
        (syncWithLeader 3 6 initialServers).2).find? (fun s => s.id = 3)
      = (syncWithLeader 3 6 initialServers).2.find? (fun s => s.id = 3) :=
  ⟨(syncWithLeader_deep_copy initialServers 3 6).1 (mkServer 3) (mkServer 6)
      rfl rfl,
   (syncWithLeader_deep_copy initialServers 99 6).2.1 (Or.inl rfl),
   (syncWithLeader_deep_copy initialServers 3 6).2.2 (by decide)
     (fun _ => []) (fun _ => [])⟩

/-- C8: over a fixed active list of three members with distinct ids, nine
consecutive round-robin selections starting from cursor 0 pick each member
exactly three times, and every call advances the cursor by exactly one
position (mod 3). -/
theorem roundRobin_fair_over_three (a b c : Server)
    (hab : a.id ≠ b.id) (hac : a.id ≠ c.id) (hbc : b.id ≠ c.id) :
    ((rrRun [a, b, c] 0 9).1.countP (fun s => s = some a) = 3 ∧
     (rrRun [a, b, c] 0 9).1.countP (fun s => s = some b) = 3 ∧
     (rrRun [a, b, c] 0 9).1.countP (fun s => s = some c) = 3) ∧
    (∀ idx, (roundRobinSelection [a, b, c] idx).2 = (idx + 1) % 3) := by
  have hba : ¬(b = a) := fun h => hab (congrArg Server.id h).symm
  have hca : ¬(c = a) := fun h => hac (congrArg Server.id h).symm
  have hab' : ¬(a = b) := fun h => hab (congrArg Server.id h)
  have hcb : ¬(c = b) := fun h => hbc (congrArg Server.id h).symm
  have hac' : ¬(a = c) := fun h => hac (congrArg Server.id h)
  have hbc' : ¬(b = c) := fun h => hbc (congrArg Server.id h)
  have hsels : (rrRun [a, b, c] 0 9).1
      = [some a, some b, some c, some a, some b, some c,
         some a, some b, some c] := by with_unfolding_all rfl
  refine ⟨?_, fun idx => rfl⟩
  rw [hsels]
  refine ⟨?_, ?_, ?_⟩ <;>
    simp [List.countP_cons, hba, hca, hab', hcb, hac', hbc']

theorem roundRobin_fair_over_three_witness :
    ((rrRun [mkServer 1, mkServer 2, mkServer 3] 0 9).1.countP
        (fun s => s = some (mkServer 1)) = 3 ∧
     (rrRun [mkServer 1, mkServer 2, mkServer 3] 0 9).1.countP
        (fun s => s = some (mkServer 2)) = 3 ∧
     (rrRun [mkServer 1, mkServer 2, mkServer 3] 0 9).1.countP
        (fun s => s = some (mkServer 3)) = 3) ∧
    (∀ idx, (roundRobinSelection [mkServer 1, mkServer 2, mkServer 3] idx).2
      = (idx + 1) % 3) :=
  roundRobin_fair_over_three (mkServer 1) (mkServer 2) (mkServer 3)
    (by decide) (by decide) (by decide)

end DsStock

namespace DsStock

theorem updateMetrics_preserves_inv (m : Metrics) (action : String)
    (responseTime : Option ℚ) (now r1 r2 : ℚ) (hm : metricsInv m)
    (h1 : 0 ≤ r1) (h2 : 0 ≤ r2) :
    metricsInv (updateMetrics m action responseTime now r1 r2) := by
  obtain ⟨hac, hqd, hhs0, hhs100⟩ := hm
  have hcpu : 0 ≤ min 100 (m.activeConnections * 10 + r1 * 20) :=
    le_min (by norm_num) (by linarith)
  have hmem : 0 ≤ min 100 (m.activeConnections * 5 + r2 * 30) :=
    le_min (by norm_num) (by linarith)
  simp only [updateMetrics, metricsInv]
  split
  · refine ⟨?_, ?_, ?_, ?_⟩ <;> (try simp only) <;>
      first
        | exact le_max_left _ _
        | exact max_le (by norm_num) (by linarith)
        | linarith
  · split
    · split <;>
        (refine ⟨?_, ?_, ?_, ?_⟩ <;> (try simp only) <;>
          first
            | exact le_max_left _ _
            | exact max_le (by norm_num) (by linarith)
            | linarith)
    · split
      · refine ⟨?_, ?_, ?_, ?_⟩ <;> (try simp only) <;>
          first
            | exact le_max_left _ _
            | exact max_le (by norm_num) (by linarith)
            | linarith
      · exact ⟨hac, hqd, hhs0, hhs100⟩

/-- C10: along any sequence of `updateMetrics` calls (with the health-check
jitter draws nonnegative, as `Math.random()` guarantees), a metrics record
keeps `activeConnections ≥ 0`, `queueDepth ≥ 0` and `healthScore ∈ [0,100]`;
and a `response` on a record with zero active connections clamps the counter
at 0 instead of going negative. -/
theorem metrics_invariants (m : Metrics) (calls : List MetricsCall)
    (hm : metricsInv m)
    (hr : ∀ call ∈ calls, 0 ≤ call.r1 ∧ 0 ≤ call.r2) :
    metricsInv (calls.foldl applyCall m) ∧
    (∀ responseTime now r1 r2, m.activeConnections = 0 →
      (updateMetrics m "response" responseTime now r1 r2).activeConnections
        = 0) := by
  constructor
  · induction calls generalizing m with
    | nil => exact hm
    | cons call rest ih =>
        have hcall := hr call (List.mem_cons_self _ _)
        exact ih (applyCall m call)
          (updateMetrics_preserves_inv m call.action call.responseTime
            call.now call.r1 call.r2 hm hcall.1 hcall.2)
          (fun c hc => hr c (List.mem_cons_of_mem _ hc))
  · intro responseTime now r1 r2 h0
    have hno : ¬(("response" : String) = "request") := by decide
    simp only [updateMetrics, if_neg hno, if_pos rfl]
    cases responseTime <;> simp [h0]


theorem metrics_invariants_witness :
    metricsInv
      ([⟨"request", none, 0, 0, 0⟩,
        ⟨"response", some 120, 0, 0, 0⟩,
        ⟨"health-check", none, 5, 0, 1⟩].foldl applyCall initialMetrics) ∧
    (∀ responseTime now r1 r2,
      initialMetrics.activeConnections = 0 →
      (updateMetrics initialMetrics "response" responseTime now r1
        r2).activeConnections = 0) :=
  metrics_invariants initialMetrics
    [⟨"request", none, 0, 0, 0⟩,
     ⟨"response", some 120, 0, 0, 0⟩,
     ⟨"health-check", none, 5, 0, 1⟩]
    (by constructor <;> norm_num [initialMetrics])
    (by intro call hc; fin_cases hc <;> norm_num)

end DsStock
